import Mathlib

/-
Shallow embedding of the identicon generator (src/main.rs).

Machine integers (`u32`, `u8`) are modelled as `Nat`.  The source uses `f32`
arithmetic in two places.  `closest_multiple` is modelled bit-exactly as
binary32 arithmetic (round-to-nearest-even conversion, correctly rounded
division and multiplication, half-away-from-zero `round`, saturating cast),
because its divisibility-error path is reachable with arbitrary `u32`
resolutions, where the float rounding is observable.  The `stop` column
bound runs only after validation, where `cell_size * grid_size = resolution
≤ 1000`, so all its intermediate values are integers or half-integers far
below 2^24, the `f32` computation is exact, and the truncating cast
coincides with truncated natural division; there an exact natural-number
formula is used.  `u32` overflow in
`resolution + padding * 2` (possible only for padding at least 2^31) is not
modelled; theorems about the render stage carry an explicit no-overflow bound.
Rust panics (division by zero, iterator `unwrap` failure, bit-stream
exhaustion, out-of-bounds `put_pixel`, `u32` subtraction underflow) are
modelled as an explicit `panic` outcome.
-/

namespace IdenticonGenerator

/-- RGBA pixel color, modelling `image::Rgba<u8>` (channel bytes as `Nat`). -/
structure Rgba where
  r : Nat
  g : Nat
  b : Nat
  a : Nat
deriving DecidableEq, Repr

/-- The pixel buffer of a `DynamicImage`, as a total map from `(x, y)`
coordinates to colors.  Bounds are enforced by the render model, which
panics before performing an out-of-bounds write. -/
abbrev Canvas : Type := Nat × Nat → Rgba

/-- The all-zero (fully transparent) color that `DynamicImage::new_rgba8`
initializes every pixel to. -/
def transparent : Rgba := ⟨0, 0, 0, 0⟩

/-- The freshly allocated canvas: every pixel fully transparent. -/
def blankCanvas : Canvas := fun _ => transparent

/-- Model of `img.put_pixel(px, py, c)`: pointwise update. -/
def put_pixel (img : Canvas) (px py : Nat) (c : Rgba) : Canvas :=
  fun q => if q = (px, py) then c else img q

/-- Model of `fill_square(img, x, y, s, c)`: the double loop
`for py in y..(y+s) { for px in x..(x+s) { img.put_pixel(px, py, c) } }`. -/
def fill_square (img : Canvas) (x y s : Nat) (c : Rgba) : Canvas :=
  (List.range s).foldl
    (fun imRow j =>
      (List.range s).foldl (fun im i => put_pixel im (x + i) (y + j) c) imRow)
    img

/-- The number of values `(start..stop).step_by step` yields: the ceiling of
`(stop - start) / step`. -/
def numSteps (start stop step : Nat) : Nat :=
  (stop - start + step - 1) / step

/-- Model of the Rust iterator `(start..stop).step_by step`: the values
`start, start + step, start + 2*step, ...` strictly below `stop`.  The
theorem `rangeStep_eq` below shows this list satisfies exactly the
recurrence of the loop (yield `start`, continue from `start + step`, while
`start < stop`).  `step_by 0` panics in Rust; the model returns `[]` for
`step = 0`, a case the program never reaches because `cell_size == 0` is
rejected before the loops run. -/
def rangeStep (start stop step : Nat) : List Nat :=
  (List.range (numSteps start stop step)).map (fun k => start + k * step)

/-- The row-major visit order of the grid loops of `gen_identicon`:
`cy` sweeps `(padding..resolution).step_by cell` in the outer loop and
`cx` sweeps `(padding..stop).step_by cell` in the inner loop; each visited
cell is recorded as `(cx, cy)`. -/
def cellList (padding resolution stop cell : Nat) : List (Nat × Nat) :=
  (rangeStep padding resolution cell).flatMap
    (fun cy => (rangeStep padding stop cell).map (fun cx => (cx, cy)))

/-- Bit length of a natural number, fuel-bounded at 128 bits so that the
kernel can evaluate it; every use in this model stays far below `2^128`. -/
def bitlenAux : Nat → Nat → Nat
  | 0, _ => 0
  | fuel + 1, n => if n = 0 then 0 else bitlenAux fuel (n / 2) + 1

/-- Bit length of a natural number below `2^128`. -/
def bitlen (n : Nat) : Nat := bitlenAux 128 n

/-- Round `p / q` (with `q > 0`) to the nearest integer, ties to even. -/
def rneDiv (p q : Nat) : Nat :=
  let d := p / q
  let r := p % q
  if 2 * r < q then d
  else if q < 2 * r then d + 1
  else if d % 2 = 0 then d else d + 1

/-- Round a natural number to the nearest binary32 value (24-bit
significand, round to nearest, ties to even): the rounding that
`u32 as f32` performs, and likewise the rounding of the exact integer
product inside an `f32` multiplication of two integer-valued operands. -/
def f32RoundNat (n : Nat) : Nat :=
  let k := bitlen n
  if k ≤ 24 then n
  else rneDiv n (2 ^ (k - 24)) * 2 ^ (k - 24)

/-- Smallest `g` with `b ≤ a * 2^g`, fuel-bounded at 128 doublings. -/
def negExpAux : Nat → Nat → Nat → Nat
  | 0, _, _ => 0
  | fuel + 1, a, b => if b ≤ a then 0 else negExpAux fuel (2 * a) b + 1

/-- Smallest `g` with `b ≤ a * 2^g` (for `1 ≤ a < b < 2^128`). -/
def negExp (a b : Nat) : Nat := negExpAux 128 a b

/-- The correctly rounded binary32 quotient of the exact integer values
`a / b` (`b > 0`), as a dyadic pair `(iq, g)` of value `iq / 2^g`: the
significand is rounded to nearest, ties to even, at the binade of the
exact quotient. -/
def f32Div (a b : Nat) : Nat × Nat :=
  if a = 0 then (0, 0)
  else if b ≤ a then
    let e := bitlen (a / b) - 1
    if 23 ≤ e then (rneDiv a (b * 2 ^ (e - 23)) * 2 ^ (e - 23), 0)
    else (rneDiv (a * 2 ^ (23 - e)) b, 23 - e)
  else
    let g := negExp a b
    (rneDiv (a * 2 ^ (23 + g)) b, 23 + g)

/-- `f32::round` (round half away from zero) of the nonnegative dyadic
value `iq / 2^g`. -/
def roundHalfAway (iq g : Nat) : Nat :=
  if g = 0 then iq else (iq + 2 ^ (g - 1)) / 2 ^ g

/-- Model of `closest_multiple(n, m) = (m as f32 * (n as f32 / m as f32).round()) as u32`,
following the `f32` computation step by step: convert `n` and `m` to
binary32 (round to nearest, ties to even), divide the two binary32 values
with correct rounding, round the quotient half away from zero (the result
is an exact binary32 value: either the quotient is below `2^24`, or it is
already an integer), multiply with correct rounding, and truncate with
saturation to `u32`.  For `m = 0` the Rust expression is
`0.0 * inf = NaN` (or `0.0 / 0.0 = NaN` when `n = 0`), and `NaN as u32`
is 0. -/
def closest_multiple (n m : Nat) : Nat :=
  let a := f32RoundNat n
  let b := f32RoundNat m
  if b = 0 then 0
  else
    let q := f32Div a b
    let r := roundHalfAway q.1 q.2
    min (f32RoundNat (b * r)) 4294967295

/-- The numeric value of a decimal digit character, `none` otherwise. -/
def digitVal (c : Char) : Option Nat :=
  let n := c.toNat
  if 48 ≤ n ∧ n ≤ 57 then some (n - 48) else none

/-- Decimal value of a nonempty all-digit character list, `none` otherwise. -/
def parseDigits (cs : List Char) : Option Nat :=
  match cs with
  | [] => none
  | _ => cs.foldl
      (fun acc c =>
        match acc, digitVal c with
        | some a, some d => some (a * 10 + d)
        | _, _ => none)
      (some 0)

/-- Model of `str::parse::<u32>()`: an optional leading `+`, then at least
one decimal digit, value within the `u32` range (overflow is a parse
error). -/
def parseU32 (s : String) : Option Nat :=
  let cs := match s.data with
    | '+' :: rest => rest
    | cs => cs
  match parseDigits cs with
  | some n => if n < 4294967296 then some n else none
  | none => none

/-- Model of `str::parse::<bool>()`: exactly `true` or `false`. -/
def parseBool (s : String) : Option Bool :=
  if s = "true" then some true else if s = "false" then some false else none

/-- Lookup in the query `HashMap` collected from the key-value pairs; a
repeated key keeps the last occurrence, as `HashMap::from_iter` does. -/
def qlookup (query : List (String × String)) (key : String) : Option String :=
  (query.reverse.find? (fun kv => kv.1 == key)).map (fun kv => kv.2)

/-- Model of `parse_query_param_or(query, key, default)`:
`query.get(key).map(|s| s.parse().unwrap_or(default)).unwrap_or(default)`. -/
def parse_query_param_or {T : Type} (query : List (String × String)) (key : String)
    (parse : String → Option T) (default : T) : T :=
  match qlookup query key with
  | some s => (parse s).getD default
  | none => default

/-- The request data `gen_identicon` consumes: HTTP method, the file stem of
the path (`None` when the path has no file name), the path extension, and
the parsed query pairs. -/
structure Request where
  method : String
  file_name : Option String
  extension : Option String
  query : List (String × String)
deriving DecidableEq, Repr

/-- `let grid_size = parse_query_param_or(&query, "size", 5)`. -/
def Request.grid_size (req : Request) : Nat :=
  parse_query_param_or req.query "size" parseU32 5

/-- `let padding = parse_query_param_or(&query, "pad", 0)`. -/
def Request.padding (req : Request) : Nat :=
  parse_query_param_or req.query "pad" parseU32 0

/-- `let resolution = parse_query_param_or(&query, "res", closest_multiple(200, grid_size))`. -/
def Request.resolution (req : Request) : Nat :=
  parse_query_param_or req.query "res" parseU32 (closest_multiple 200 req.grid_size)

/-- `let symmetrical = parse_query_param_or(&query, "sym", true)`. -/
def Request.symmetrical (req : Request) : Bool :=
  parse_query_param_or req.query "sym" parseBool true

/-- `let extension = path.extension().and_then(OsStr::to_str).unwrap_or("png")`. -/
def Request.extensionOrDefault (req : Request) : String :=
  req.extension.getD "png"

/-- The four SHA-2 hash algorithms the handler can select. -/
inductive HashAlg
  | sha224
  | sha256
  | sha384
  | sha512
deriving DecidableEq, Repr

/-- `Digest::output_bytes` of the selected algorithm (fixed output sizes of
the SHA-2 family as implemented by the `crypto` crate). -/
def HashAlg.output_bytes : HashAlg → Nat
  | .sha224 => 28
  | .sha256 => 32
  | .sha384 => 48
  | .sha512 => 64

/-- The `match grid_size` bucket table choosing the hasher; `none` models the
fall-through arm that rejects the request. -/
def selectHasher (grid_size : Nat) : Option HashAlg :=
  if 1 ≤ grid_size ∧ grid_size ≤ 13 then some .sha224
  else if grid_size = 14 then some .sha256
  else if 15 ≤ grid_size ∧ grid_size ≤ 18 then some .sha384
  else if 19 ≤ grid_size ∧ grid_size ≤ 21 then some .sha512
  else none

/-- The algorithm a request selects: a function of the parsed `grid_size`
only. -/
def chosenAlg (req : Request) : Option HashAlg :=
  selectHasher req.grid_size

/-- The eight booleans `((byte >> k) & 1) == 1` for `k = 0..7`, in increasing
order of `k` (least-significant-bit first), exactly as in the source. -/
def bitsOfByte (byte : Nat) : List Bool :=
  [((byte >>> 0) &&& 1) == 1,
   ((byte >>> 1) &&& 1) == 1,
   ((byte >>> 2) &&& 1) == 1,
   ((byte >>> 3) &&& 1) == 1,
   ((byte >>> 4) &&& 1) == 1,
   ((byte >>> 5) &&& 1) == 1,
   ((byte >>> 6) &&& 1) == 1,
   ((byte >>> 7) &&& 1) == 1]

/-- The flattened bit stream `bytes.map(bitsOfByte).flatten()`. -/
def bitsOfBytes (bytes : List Nat) : List Bool :=
  (bytes.map bitsOfByte).flatten

/-- Lines 129-148 of the source: take the first three digest bytes as the
RGB of the fill color (alpha 255) and turn the remaining bytes into the
bit stream; `none` models the `unwrap` panic when the digest has fewer than
three bytes. -/
def deriveColorAndBits (bytes : List Nat) : Option (Rgba × List Bool) :=
  match bytes with
  | r :: g :: b :: rest => some (⟨r, g, b, 255⟩, bitsOfBytes rest)
  | _ => none

/-- The column bound of the inner loop:
`if symmetrical { (resolution as f32 - cell_size as f32 * grid_size as f32 * 0.5) as u32 } else { resolution }`.
On reachable inputs (`resolution ≤ 1000`, so all quantities are integers or
half-integers far below 2^24) the `f32` computation is exact and the
truncating cast equals `(2*resolution - cell_size*grid_size) / 2`. -/
def stopValue (resolution cell_size grid_size : Nat) (symmetrical : Bool) : Nat :=
  if symmetrical then (2 * resolution - cell_size * grid_size) / 2 else resolution

/-- The Rust panics the handler can hit, modelled explicitly. -/
inductive RPanic
  | divByZero
  | iterExhausted
  | bitsExhausted
  | pixelOutOfBounds
  | subUnderflow
deriving DecidableEq, Repr

/-- One `fill_square` call recorded by the render loop: position, side and
color. -/
structure FillOp where
  x : Nat
  y : Nat
  s : Nat
  c : Rgba
deriving DecidableEq, Repr

/-- The grid render loop (lines 158-167): visit the cells in order, popping
one bit per cell; a true bit fills the square at `(cx, cy)` and, when
symmetrical, the mirrored square at `size - cx - cell`.  Panics are
modelled in source order: bit-stream exhaustion at the pop, then an
out-of-bounds `put_pixel` inside the first `fill_square`, then `u32`
underflow in `size - cx - cell_size`.  The result lists the `fill_square`
calls in execution order. -/
def renderGrid (symmetrical : Bool) (size cell : Nat) (c : Rgba) :
    List (Nat × Nat) → List Bool → Except RPanic (List FillOp)
  | [], _ => .ok []
  | _ :: _, [] => .error .bitsExhausted
  | (cx, cy) :: cells, bit :: bits =>
    if bit then
      if 0 < cell ∧ (size < cx + cell ∨ size < cy + cell) then .error .pixelOutOfBounds
      else if symmetrical then
        if size < cx + cell then .error .subUnderflow
        else
          match renderGrid symmetrical size cell c cells bits with
          | .error p => .error p
          | .ok ops => .ok (⟨cx, cy, cell, c⟩ :: ⟨size - cx - cell, cy, cell, c⟩ :: ops)
      else
        match renderGrid symmetrical size cell c cells bits with
        | .error p => .error p
        | .ok ops => .ok (⟨cx, cy, cell, c⟩ :: ops)
    else renderGrid symmetrical size cell c cells bits

/-- Replay one recorded `fill_square` call on a canvas. -/
def applyOp (img : Canvas) (op : FillOp) : Canvas :=
  fill_square img op.x op.y op.s op.c

/-- Replay the recorded `fill_square` calls in execution order. -/
def applyOps (img : Canvas) (ops : List FillOp) : Canvas :=
  ops.foldl applyOp img

/-- The output container formats of the `image` crate the handler selects. -/
inductive ImageFormat
  | bmp
  | jpeg
  | ico
  | png
deriving DecidableEq, Repr

/-- The `match extension` choosing the output format; anything unrecognized
falls through to PNG. -/
def formatOf (extension : String) : ImageFormat :=
  if extension = "bmp" then .bmp
  else if extension = "jpeg" then .jpeg
  else if extension = "ico" then .ico
  else .png

/-- The observable outcome of one request: a Rust panic, an error response
(status, headers, body), or a successful image response carrying the
content type, container format, canvas side length and the recorded
`fill_square` calls (the encoded bytes themselves are produced by the
external `image` crate and are a function of these data). -/
inductive Outcome
  | panic (p : RPanic)
  | error (status : Nat) (headers : List (String × Nat)) (body : String)
  | image (contentType : String) (format : ImageFormat) (size : Nat) (ops : List FillOp)
deriving DecidableEq, Repr

/-- The handler `gen_identicon`, parameterized by the digest function of the
external `crypto` crate (`hash alg name` is the digest of `name` under
`alg`).  Faithful to the source order: the method test, query parsing,
`cell_size = resolution / grid_size` (a division-by-zero panic when the
parsed grid size is 0, before any validation), the missing-name check, the
four validation checks, hasher selection, digest consumption, and the
render loop. -/
def gen_identicon (hash : HashAlg → String → List Nat) (req : Request) : Outcome :=
  if req.method ≠ "GET" then .error 405 [] "Only GET requests are supported"
  else
    let grid_size := req.grid_size
    let padding := req.padding
    let resolution := req.resolution
    let symmetrical := req.symmetrical
    let extension := req.extensionOrDefault
    if grid_size = 0 then .panic .divByZero
    else
      let cell_size := resolution / grid_size
      let size := resolution + padding * 2
      match req.file_name with
      | none => .error 404 [] "No name was provided"
      | some name =>
        if resolution % grid_size ≠ 0 then
          .error 400 [("X-Recommended-Size", closest_multiple resolution grid_size)]
            "The resolution must be evenly divisible by the size"
        else if 1000 < resolution then
          .error 400 [] "Resolution cannot exceed 1000"
        else if 256 < size ∧ extension = "ico" then
          .error 400 [] "ICO size (pad * 2 + res) must be in range 1-256"
        else if cell_size = 0 then
          .error 400 [] "Grid size cannot be larger than resolution"
        else
          match selectHasher grid_size with
          | none => .error 400 [] "Grid size must be less from range 1-21"
          | some alg =>
            match deriveColorAndBits (hash alg name) with
            | none => .panic .iterExhausted
            | some (fill_color, bits) =>
              let stop := stopValue resolution cell_size grid_size symmetrical
              match renderGrid symmetrical size cell_size fill_color
                      (cellList padding resolution stop cell_size) bits with
              | .error p => .panic p
              | .ok ops => .image ("image/" ++ extension) (formatOf extension) size ops

/-- A sequence of independently handled requests: the server holds no state
across invocations, so serving is just mapping the handler. -/
def serve (hash : HashAlg → String → List Nat) (reqs : List Request) : List Outcome :=
  reqs.map (gen_identicon hash)

/-- A concrete digest function used to instantiate witness statements: the
all-zero digest of the correct length for each algorithm. -/
def zeroHash : HashAlg → String → List Nat :=
  fun alg _ => List.replicate alg.output_bytes 0

/-- A concrete request whose padding exceeds its resolution: grid size 1,
resolution 2, padding 5. -/
def reqPadBig : Request :=
  ⟨"GET", some "pad", none, [("size", "1"), ("res", "2"), ("pad", "5")]⟩

/-- A concrete request with resolution 199 and grid size 5, which fails
the divisibility check. -/
def reqRes199 : Request :=
  ⟨"GET", some "alice", none, [("size", "5"), ("res", "199")]⟩

/-- The step list satisfies exactly the while-loop recurrence of the Rust
iterator `(start..stop).step_by step`: yield `start` and continue from
`start + step` while `start < stop`. -/
theorem rangeStep_eq (start stop step : Nat) (hstep : 0 < step) :
    rangeStep start stop step =
      if start < stop then start :: rangeStep (start + step) stop step else [] := by
  by_cases h : start < stop
  · rw [if_pos h]
    have hn : numSteps start stop step = numSteps (start + step) stop step + 1 := by
      unfold numSteps
      rcases Nat.lt_or_ge step (stop - start) with hlt | hge
      · have hsplit : stop - start + step - 1 = (stop - (start + step) + step - 1) + step := by
          omega
        rw [hsplit, Nat.add_div_right _ hstep]
      · have hz : stop - (start + step) = 0 := by omega
        have hsplit : stop - start + step - 1 = (stop - start - 1) + step := by omega
        rw [hz, hsplit, Nat.add_div_right _ hstep,
          Nat.div_eq_of_lt (by omega), Nat.div_eq_of_lt (by omega)]
    rw [rangeStep, rangeStep, hn, List.range_succ_eq_map]
    simp only [List.map_cons, List.map_map, Nat.zero_mul, Nat.add_zero, List.cons.injEq, true_and]
    apply List.map_congr_left
    intro k _
    simp [Function.comp, Nat.succ_mul]
    omega
  · rw [if_neg h, rangeStep]
    have hz : numSteps start stop step = 0 := by
      unfold numSteps
      have hd : stop - start = 0 := by omega
      rw [hd]
      exact Nat.div_eq_of_lt (by omega)
    rw [hz]
    rfl

/-- Every element of the step list has the form `start + k * step` and lies
strictly below `stop`. -/
theorem mem_rangeStep {x start stop step : Nat} (hstep : 0 < step)
    (hx : x ∈ rangeStep start stop step) : ∃ k, x = start + k * step ∧ x < stop := by
  rw [rangeStep] at hx
  simp only [List.mem_map, List.mem_range] at hx
  obtain ⟨k, hk, rfl⟩ := hx
  refine ⟨k, rfl, ?_⟩
  have h1 : k + 1 ≤ numSteps start stop step := hk
  have h2 : (k + 1) * step ≤ numSteps start stop step * step := Nat.mul_le_mul_right _ h1
  have h3 : numSteps start stop step * step ≤ stop - start + step - 1 :=
    Nat.div_mul_le_self _ _
  rw [Nat.succ_mul] at h2
  omega

/-- The number of loop iterations is the ceiling of
`(stop - start) / step`. -/
theorem rangeStep_length (start stop step : Nat) :
    (rangeStep start stop step).length = (stop - start + step - 1) / step := by
  simp [rangeStep, numSteps]

/-- At most `grid` iterations happen when the bound is at most
`grid * cell`. -/
theorem numSteps_le (padding stop grid cell : Nat) (hc : 0 < cell)
    (hstop : stop ≤ grid * cell) : numSteps padding stop cell ≤ grid := by
  unfold numSteps
  have hmul : grid * cell = cell * grid := Nat.mul_comm _ _
  have h1 : stop - padding + cell - 1 ≤ cell * grid + (cell - 1) := by omega
  calc (stop - padding + cell - 1) / cell
      ≤ (cell * grid + (cell - 1)) / cell := Nat.div_le_div_right h1
    _ = grid + (cell - 1) / cell := Nat.mul_add_div hc _ _
    _ = grid := by rw [Nat.div_eq_of_lt (by omega), Nat.add_zero]

/-- When the padding is smaller than one cell, the loop over
`(padding..grid*cell).step_by cell` visits exactly `grid` positions. -/
theorem numSteps_eq_of_padding_lt (padding grid cell : Nat) (hc : 0 < cell)
    (hg : 0 < grid) (hpad : padding < cell) :
    numSteps padding (grid * cell) cell = grid := by
  unfold numSteps
  have hmul : grid * cell = cell * grid := Nat.mul_comm _ _
  have hle : cell ≤ cell * grid := Nat.le_mul_of_pos_right _ hg
  have h1 : grid * cell - padding + cell - 1 = cell * grid + (cell - 1 - padding) := by omega
  rw [h1, Nat.mul_add_div hc, Nat.div_eq_of_lt (by omega), Nat.add_zero]

/-- The grid visits `rows * cols` cells. -/
theorem cellList_length (p r s c : Nat) :
    (cellList p r s c).length = (rangeStep p r c).length * (rangeStep p s c).length := by
  unfold cellList
  rw [List.length_flatMap]
  have h1 : ∀ cy : Nat, ((rangeStep p s c).map (fun cx => (cx, cy))).length
      = (rangeStep p s c).length := fun _ => List.length_map _ _
  induction rangeStep p r c with
  | nil => simp
  | cons a t ih =>
    simp only [List.map_cons, List.sum_cons, List.length_cons, Function.comp_apply, ih, h1]
    ring

/-- Membership in the visited-cell list is membership of the column in the
inner sweep and of the row in the outer sweep. -/
theorem mem_cellList {cx cy p r s c : Nat} :
    (cx, cy) ∈ cellList p r s c ↔ cx ∈ rangeStep p s c ∧ cy ∈ rangeStep p r c := by
  unfold cellList
  simp only [List.mem_flatMap, List.mem_map, Prod.mk.injEq]
  constructor
  · rintro ⟨a, ha, x, hx, rfl, rfl⟩
    exact ⟨hx, ha⟩
  · rintro ⟨hx, ha⟩
    exact ⟨cy, ha, cx, hx, rfl, rfl⟩

/-- The column bound never exceeds the resolution. -/
theorem stopValue_le (res cell grid : Nat) (sym : Bool) :
    stopValue res cell grid sym ≤ res := by
  unfold stopValue
  cases sym with
  | false => simp
  | true =>
    simp only [if_pos rfl]
    calc (2 * res - cell * grid) / 2 ≤ 2 * res / 2 :=
          Nat.div_le_div_right (by omega)
      _ = res := by omega

/-- The bit stream of a byte list splits byte by byte. -/
theorem bitsOfBytes_cons (b : Nat) (t : List Nat) :
    bitsOfBytes (b :: t) = bitsOfByte b ++ bitsOfBytes t := by
  simp [bitsOfBytes]

/-- Each byte contributes exactly eight bits. -/
theorem bitsOfByte_length (b : Nat) : (bitsOfByte b).length = 8 := rfl

/-- The bit stream of `n` bytes has exactly `8 * n` bits. -/
theorem bitsOfBytes_length (l : List Nat) : (bitsOfBytes l).length = 8 * l.length := by
  induction l with
  | nil => rfl
  | cons b t ih =>
    rw [bitsOfBytes_cons, List.length_append, bitsOfByte_length, ih, List.length_cons]
    ring

/-- Bit `k` of one byte is `((byte >> k) & 1) == 1`. -/
theorem bitsOfByte_getD (b k : Nat) (hk : k < 8) :
    (bitsOfByte b).getD k false = (((b >>> k) &&& 1) == 1) := by
  interval_cases k <;> rfl

/-- Bit `8*i + k` of the stream is bit `k` of byte `i`, least-significant
bit first. -/
theorem bitsOfBytes_getD (l : List Nat) (i k : Nat) (hi : i < l.length) (hk : k < 8) :
    (bitsOfBytes l).getD (8 * i + k) false = (((l.getD i 0) >>> k) &&& 1 == 1) := by
  induction l generalizing i with
  | nil => simp at hi
  | cons b t ih =>
    cases i with
    | zero =>
      rw [bitsOfBytes_cons, Nat.mul_zero, Nat.zero_add,
        List.getD_append _ _ _ _ (by rw [bitsOfByte_length]; omega)]
      exact bitsOfByte_getD b k hk
    | succ j =>
      have hidx : 8 * (j + 1) + k = 8 * j + k + 8 := by ring
      rw [bitsOfBytes_cons, hidx,
        List.getD_append_right _ _ _ _ (by rw [bitsOfByte_length]; omega)]
      rw [bitsOfByte_length]
      have : 8 * j + k + 8 - 8 = 8 * j + k := by omega
      rw [this, List.getD_cons_succ]
      exact ih j (by simpa using hi)

/-- Folding a row of `put_pixel` updates leaves every pixel that is not
written unchanged. -/
theorem foldl_put_pixel_row (x py : Nat) (c : Rgba) (p : Nat × Nat) :
    ∀ (is : List Nat) (im : Canvas), (∀ i ∈ is, p ≠ (x + i, py)) →
      (is.foldl (fun im2 i => put_pixel im2 (x + i) py c) im) p = im p := by
  intro is
  induction is with
  | nil => intro im _; rfl
  | cons i t ih =>
    intro im h
    simp only [List.foldl_cons]
    rw [ih _ (fun j hj => h j (List.mem_cons_of_mem _ hj))]
    unfold put_pixel
    rw [if_neg (h i (List.mem_cons_self _ _))]

/-- `fill_square` does not touch any pixel outside the rectangle
`[x, x+s) × [y, y+s)`. -/
theorem fill_square_unchanged (img : Canvas) (x y s : Nat) (c : Rgba) (p : Nat × Nat)
    (hout : p.1 < x ∨ x + s ≤ p.1 ∨ p.2 < y ∨ y + s ≤ p.2) :
    fill_square img x y s c p = img p := by
  unfold fill_square
  have key : ∀ (js : List Nat) (im : Canvas), (∀ j ∈ js, j < s) →
      (js.foldl
        (fun imRow j =>
          (List.range s).foldl (fun im2 i => put_pixel im2 (x + i) (y + j) c) imRow)
        im) p = im p := by
    intro js
    induction js with
    | nil => intro im _; rfl
    | cons j t ih =>
      intro im h
      simp only [List.foldl_cons]
      rw [ih _ (fun a ha => h a (List.mem_cons_of_mem _ ha))]
      apply foldl_put_pixel_row
      intro i hi heq
      have hi' : i < s := List.mem_range.mp hi
      have hj : j < s := h j (List.mem_cons_self _ _)
      subst heq
      simp only at hout
      omega
  exact key _ img (fun j hj => List.mem_range.mp hj)

/-- With at least as many bits as cells, the render loop never hits
bit-stream exhaustion. -/
theorem renderGrid_ne_bitsExhausted (sym : Bool) (size cell : Nat) (c : Rgba) :
    ∀ (cells : List (Nat × Nat)) (bits : List Bool), cells.length ≤ bits.length →
      renderGrid sym size cell c cells bits ≠ .error .bitsExhausted := by
  intro cells
  induction cells with
  | nil => intro bits _; simp [renderGrid]
  | cons q t ih =>
    intro bits h
    obtain ⟨cx, cy⟩ := q
    cases bits with
    | nil => simp at h
    | cons bit bs =>
      have hlen : t.length ≤ bs.length := by
        simp only [List.length_cons] at h
        omega
      have ihb := ih bs hlen
      have hp : ∀ p, renderGrid sym size cell c t bs = .error p → p ≠ .bitsExhausted := by
        intro p hres hcontra
        exact ihb (by rw [hres, hcontra])
      simp only [renderGrid]
      rcases hres : renderGrid sym size cell c t bs with p | ops
      · have hpne := hp p hres
        split_ifs <;> simp_all
      · split_ifs <;> simp_all

/-- When the bits suffice and every visited cell fits in the canvas, the
render loop succeeds and every recorded `fill_square` call has side
`cell`, the fill color, and stays within the canvas. -/
theorem renderGrid_ok_of_bounds (sym : Bool) (size cell : Nat) (c : Rgba) :
    ∀ (cells : List (Nat × Nat)) (bits : List Bool), cells.length ≤ bits.length →
      (∀ q ∈ cells, q.1 + cell ≤ size ∧ q.2 + cell ≤ size) →
      ∃ ops, renderGrid sym size cell c cells bits = .ok ops ∧
        ∀ op ∈ ops, op.s = cell ∧ op.c = c ∧ op.x + op.s ≤ size ∧ op.y + op.s ≤ size := by
  intro cells
  induction cells with
  | nil =>
    intro bits _ _
    exact ⟨[], rfl, by simp⟩
  | cons q t ih =>
    intro bits h hb
    obtain ⟨cx, cy⟩ := q
    cases bits with
    | nil => simp at h
    | cons bit bs =>
      have hlen : t.length ≤ bs.length := by
        simp only [List.length_cons] at h
        omega
      have hbt : ∀ q ∈ t, q.1 + cell ≤ size ∧ q.2 + cell ≤ size :=
        fun q hq => hb q (List.mem_cons_of_mem _ hq)
      have hcx : cx + cell ≤ size := (hb (cx, cy) (List.mem_cons_self _ _)).1
      have hcy : cy + cell ≤ size := (hb (cx, cy) (List.mem_cons_self _ _)).2
      obtain ⟨ops, hops, hbound⟩ := ih bs hlen hbt
      have hc1 : ¬(0 < cell ∧ (size < cx + cell ∨ size < cy + cell)) := by omega
      have hnl : ¬size < cx + cell := by omega
      by_cases hbit : bit
      · subst hbit
        by_cases hsym : sym
        · subst hsym
          refine ⟨⟨cx, cy, cell, c⟩ :: ⟨size - cx - cell, cy, cell, c⟩ :: ops, ?_, ?_⟩
          · simp [renderGrid, hc1, hnl, hops]
            try omega
          · intro op hop
            simp only [List.mem_cons] at hop
            rcases hop with rfl | rfl | hop
            · exact ⟨rfl, rfl, by show cx + cell ≤ size; omega, by show cy + cell ≤ size; omega⟩
            · exact ⟨rfl, rfl, by show size - cx - cell + cell ≤ size; omega,
                by show cy + cell ≤ size; omega⟩
            · exact hbound op hop
        · have hsym' : sym = false := by simpa using hsym
          subst hsym'
          refine ⟨⟨cx, cy, cell, c⟩ :: ops, ?_, ?_⟩
          · simp [renderGrid, hc1, hops]
            try omega
          · intro op hop
            simp only [List.mem_cons] at hop
            rcases hop with rfl | hop
            · exact ⟨rfl, rfl, by show cx + cell ≤ size; omega, by show cy + cell ≤ size; omega⟩
            · exact hbound op hop
      · have hbit' : bit = false := by simpa using hbit
        subst hbit'
        refine ⟨ops, ?_, hbound⟩
        simpa [renderGrid] using hops

/-- In symmetric mode, every visited cell whose bit is true contributes
both its own square and the mirrored square at `size - cx - cell`, with
the same color, to a successful render. -/
theorem renderGrid_true_mem (size cell : Nat) (c : Rgba) :
    ∀ (cells : List (Nat × Nat)) (bits : List Bool) (ops : List FillOp) (cx cy : Nat),
      renderGrid true size cell c cells bits = .ok ops →
      ((cx, cy), true) ∈ cells.zip bits →
      (⟨cx, cy, cell, c⟩ : FillOp) ∈ ops ∧
        (⟨size - cx - cell, cy, cell, c⟩ : FillOp) ∈ ops := by
  intro cells
  induction cells with
  | nil =>
    intro bits ops cx cy _ hmem
    simp at hmem
  | cons q t ih =>
    intro bits ops cx cy h hmem
    obtain ⟨qx, qy⟩ := q
    cases bits with
    | nil => simp at hmem
    | cons bit bs =>
      rw [List.zip_cons_cons, List.mem_cons] at hmem
      rw [renderGrid] at h
      rcases hmem with heq | htail
      · simp only [Prod.mk.injEq] at heq
        obtain ⟨⟨h1, h2⟩, h3⟩ := heq
        rw [h1, h2]
        rw [← h3] at h
        by_cases hoob : 0 < cell ∧ (size < qx + cell ∨ size < qy + cell)
        · rw [if_pos (by simp), if_pos hoob] at h
          exact absurd h (by simp)
        · rw [if_pos (by simp), if_neg hoob, if_pos (by simp)] at h
          by_cases hund : size < qx + cell
          · rw [if_pos hund] at h
            exact absurd h (by simp)
          · rw [if_neg hund] at h
            rcases hres : renderGrid true size cell c t bs with p | ops'
            · rw [hres] at h
              exact absurd h (by simp)
            · rw [hres] at h
              have hops : ops = ⟨qx, qy, cell, c⟩ :: ⟨size - qx - cell, qy, cell, c⟩ :: ops' := by
                have := h
                simp only [Except.ok.injEq] at this
                exact this.symm
              subst hops
              exact ⟨List.mem_cons_self _ _, List.mem_cons_of_mem _ (List.mem_cons_self _ _)⟩
      · by_cases hbit : bit
        · subst hbit
          by_cases hoob : 0 < cell ∧ (size < qx + cell ∨ size < qy + cell)
          · rw [if_pos (by simp), if_pos hoob] at h
            exact absurd h (by simp)
          · rw [if_pos (by simp), if_neg hoob, if_pos (by simp)] at h
            by_cases hund : size < qx + cell
            · rw [if_pos hund] at h
              exact absurd h (by simp)
            · rw [if_neg hund] at h
              rcases hres : renderGrid true size cell c t bs with p | ops'
              · rw [hres] at h
                exact absurd h (by simp)
              · rw [hres] at h
                have hops : ops = ⟨qx, qy, cell, c⟩ :: ⟨size - qx - cell, qy, cell, c⟩ :: ops' := by
                  have := h
                  simp only [Except.ok.injEq] at this
                  exact this.symm
                subst hops
                have hm := ih bs ops' cx cy hres htail
                exact ⟨List.mem_cons_of_mem _ (List.mem_cons_of_mem _ hm.1),
                  List.mem_cons_of_mem _ (List.mem_cons_of_mem _ hm.2)⟩
        · have hbit' : bit = false := by simpa using hbit
          subst hbit'
          rw [if_neg (by simp)] at h
          exact ih bs ops cx cy h htail

/-- In asymmetric mode a successful render records exactly one square per
visited true-bit cell, in visit order, and nothing else: no mirrored
square is ever painted. -/
theorem renderGrid_false_eq (size cell : Nat) (c : Rgba) :
    ∀ (cells : List (Nat × Nat)) (bits : List Bool) (ops : List FillOp),
      renderGrid false size cell c cells bits = .ok ops →
      ops = ((cells.zip bits).filter (fun pb => pb.2)).map
            (fun pb => (⟨pb.1.1, pb.1.2, cell, c⟩ : FillOp)) := by
  intro cells
  induction cells with
  | nil =>
    intro bits ops h
    simp only [renderGrid] at h
    simp at h
    simp [h.symm]
  | cons q t ih =>
    intro bits ops h
    obtain ⟨qx, qy⟩ := q
    cases bits with
    | nil => exact absurd h (by simp [renderGrid])
    | cons bit bs =>
      rw [renderGrid] at h
      rw [List.zip_cons_cons]
      by_cases hbit : bit
      · subst hbit
        by_cases hoob : 0 < cell ∧ (size < qx + cell ∨ size < qy + cell)
        · rw [if_pos (by simp), if_pos hoob] at h
          exact absurd h (by simp)
        · rw [if_pos (by simp), if_neg hoob, if_neg (by simp)] at h
          rcases hres : renderGrid false size cell c t bs with p | ops'
          · rw [hres] at h
            exact absurd h (by simp)
          · rw [hres] at h
            have hops : ops = ⟨qx, qy, cell, c⟩ :: ops' := by
              have := h
              simp only [Except.ok.injEq] at this
              exact this.symm
            subst hops
            rw [List.filter_cons_of_pos (by simp), List.map_cons]
            exact congrArg _ (ih bs ops' hres)
      · have hbit' : bit = false := by simpa using hbit
        subst hbit'
        rw [if_neg (by simp)] at h
        rw [List.filter_cons_of_neg (by simp)]
        exact ih bs ops h

/-- A grid size of at least 22 falls through the bucket table. -/
theorem selectHasher_eq_none (g : Nat) (h : 22 ≤ g) : selectHasher g = none := by
  unfold selectHasher
  rw [if_neg (by omega), if_neg (by omega), if_neg (by omega), if_neg (by omega)]

/-- A selected hasher implies a grid size in the range 1-21. -/
theorem selectHasher_some_bounds (g : Nat) (alg : HashAlg)
    (h : selectHasher g = some alg) : 1 ≤ g ∧ g ≤ 21 := by
  unfold selectHasher at h
  split_ifs at h with h1 h2 h3 h4 <;> omega

/-- Every selectable digest provides at least 28 bytes. -/
theorem output_bytes_ge (alg : HashAlg) : 28 ≤ alg.output_bytes := by
  cases alg <;> simp [HashAlg.output_bytes]

/-- The bit budget of each bucket covers the full grid: `grid²` bits never
exceed `8 * (digest length - 3)`. -/
theorem selectHasher_budget (g : Nat) (alg : HashAlg) (h1 : 1 ≤ g) (h2 : g ≤ 21)
    (hsel : selectHasher g = some alg) : g * g ≤ 8 * (alg.output_bytes - 3) := by
  interval_cases g <;> (simp [selectHasher] at hsel; subst hsel; decide)

/-- The length of the step list is `numSteps`. -/
theorem rangeStep_length_eq (start stop step : Nat) :
    (rangeStep start stop step).length = numSteps start stop step := by
  simp [rangeStep]

/-- A request that passes the whole validation chain reaches the render
stage: the digest splits as `r :: g :: b :: rest` and the outcome is the
render loop result over the visited cells, with fill color
`(r, g, b, 255)` and the bit stream of `rest`. -/
theorem gen_identicon_render (hash : HashAlg → String → List Nat) (req : Request)
    (name : String) (alg : HashAlg)
    (hmethod : req.method = "GET")
    (hfile : req.file_name = some name)
    (hsel : selectHasher req.grid_size = some alg)
    (hmod : req.resolution % req.grid_size = 0)
    (hres : req.resolution ≤ 1000)
    (hico : ¬(256 < req.resolution + req.padding * 2 ∧ req.extensionOrDefault = "ico"))
    (hcell : req.resolution / req.grid_size ≠ 0)
    (hlen : (hash alg name).length = alg.output_bytes) :
    ∃ r g b rest, hash alg name = r :: g :: b :: rest ∧
      gen_identicon hash req =
        (match renderGrid req.symmetrical (req.resolution + req.padding * 2)
            (req.resolution / req.grid_size) ⟨r, g, b, 255⟩
            (cellList req.padding req.resolution
              (stopValue req.resolution (req.resolution / req.grid_size) req.grid_size
                req.symmetrical)
              (req.resolution / req.grid_size)) (bitsOfBytes rest) with
          | .error p => Outcome.panic p
          | .ok ops => Outcome.image ("image/" ++ req.extensionOrDefault)
              (formatOf req.extensionOrDefault)
              (req.resolution + req.padding * 2) ops) := by
  have hg : 1 ≤ req.grid_size ∧ req.grid_size ≤ 21 := selectHasher_some_bounds _ _ hsel
  have hg0 : ¬req.grid_size = 0 := by omega
  have h1000 : ¬1000 < req.resolution := by omega
  obtain ⟨r, g, b, rest, hbytes⟩ : ∃ r g b rest, hash alg name = r :: g :: b :: rest := by
    have h28 := output_bytes_ge alg
    rcases hb : hash alg name with _ | ⟨r, t1⟩
    · rw [hb] at hlen
      simp at hlen
      omega
    · rcases t1 with _ | ⟨g, t2⟩
      · rw [hb] at hlen
        simp at hlen
        omega
      · rcases t2 with _ | ⟨b, rest⟩
        · rw [hb] at hlen
          simp at hlen
          omega
        · exact ⟨r, g, b, rest, rfl⟩
  refine ⟨r, g, b, rest, hbytes, ?_⟩
  simp only [gen_identicon, hmethod, hfile, hsel, hbytes, hmod, hg0, h1000, hico, hcell,
    deriveColorAndBits, ne_eq, not_true_eq_false, not_false_eq_true, if_false, if_true,
    ite_false, ite_true]

/-- The visited-cell count of a valid request is at most the bit budget of
its digest bucket. -/
theorem cellCount_le_budget (req : Request) (alg : HashAlg)
    (hg1 : 1 ≤ req.grid_size) (hg21 : req.grid_size ≤ 21)
    (hmod : req.resolution % req.grid_size = 0)
    (hcell : 1 ≤ req.resolution / req.grid_size)
    (hsel : selectHasher req.grid_size = some alg) :
    (cellList req.padding req.resolution
        (stopValue req.resolution (req.resolution / req.grid_size) req.grid_size
          req.symmetrical)
        (req.resolution / req.grid_size)).length ≤ 8 * (alg.output_bytes - 3) := by
  have hdvd : req.grid_size ∣ req.resolution := Nat.dvd_of_mod_eq_zero hmod
  have hmul : req.grid_size * (req.resolution / req.grid_size) = req.resolution :=
    Nat.mul_div_cancel' hdvd
  have hcpos : 0 < req.resolution / req.grid_size := hcell
  have hrows : (rangeStep req.padding req.resolution (req.resolution / req.grid_size)).length
      ≤ req.grid_size := by
    rw [rangeStep_length_eq]
    exact numSteps_le _ _ _ _ hcpos (by omega)
  have hcols : (rangeStep req.padding
      (stopValue req.resolution (req.resolution / req.grid_size) req.grid_size
        req.symmetrical)
      (req.resolution / req.grid_size)).length ≤ req.grid_size := by
    rw [rangeStep_length_eq]
    exact numSteps_le _ _ _ _ hcpos
      (le_trans (stopValue_le _ _ _ _) (by omega))
  rw [cellList_length]
  calc (rangeStep req.padding req.resolution (req.resolution / req.grid_size)).length *
        (rangeStep req.padding
          (stopValue req.resolution (req.resolution / req.grid_size) req.grid_size
            req.symmetrical)
          (req.resolution / req.grid_size)).length
      ≤ req.grid_size * req.grid_size := Nat.mul_le_mul hrows hcols
    _ ≤ 8 * (alg.output_bytes - 3) := selectHasher_budget _ _ hg1 hg21 hsel

/-- C2: for every valid request the grid loops visit at most
`8 * (digest length - 3)` cells, one bit popped per cell, so the
bit stream is never exhausted. -/
theorem bit_budget_sufficient (hash : HashAlg → String → List Nat) (req : Request)
    (name : String) (alg : HashAlg)
    (hlen : ∀ a s, (hash a s).length = a.output_bytes)
    (hmethod : req.method = "GET")
    (hfile : req.file_name = some name)
    (hg1 : 1 ≤ req.grid_size)
    (hg21 : req.grid_size ≤ 21)
    (hmod : req.resolution % req.grid_size = 0)
    (hres : req.resolution ≤ 1000)
    (hcell : 1 ≤ req.resolution / req.grid_size)
    (hico : ¬(256 < req.resolution + req.padding * 2 ∧ req.extensionOrDefault = "ico"))
    (_hsize : req.resolution + req.padding * 2 < 4294967296)
    (hsel : selectHasher req.grid_size = some alg) :
    (cellList req.padding req.resolution
        (stopValue req.resolution (req.resolution / req.grid_size) req.grid_size
          req.symmetrical)
        (req.resolution / req.grid_size)).length ≤ 8 * (alg.output_bytes - 3) ∧
      gen_identicon hash req ≠ Outcome.panic RPanic.bitsExhausted := by
  have hcount := cellCount_le_budget req alg hg1 hg21 hmod hcell hsel
  refine ⟨hcount, ?_⟩
  obtain ⟨r, g, b, rest, hbytes, heq⟩ :=
    gen_identicon_render hash req name alg hmethod hfile hsel hmod hres hico
      (by omega) (hlen alg name)
  rw [heq]
  have hrest : rest.length = alg.output_bytes - 3 := by
    have := hlen alg name
    rw [hbytes] at this
    simp at this
    omega
  have hbits : (cellList req.padding req.resolution
      (stopValue req.resolution (req.resolution / req.grid_size) req.grid_size
        req.symmetrical)
      (req.resolution / req.grid_size)).length ≤ (bitsOfBytes rest).length := by
    rw [bitsOfBytes_length, hrest]
    omega
  have hne := renderGrid_ne_bitsExhausted req.symmetrical
    (req.resolution + req.padding * 2) (req.resolution / req.grid_size) ⟨r, g, b, 255⟩
    (cellList req.padding req.resolution
      (stopValue req.resolution (req.resolution / req.grid_size) req.grid_size
        req.symmetrical)
      (req.resolution / req.grid_size)) (bitsOfBytes rest) hbits
  rcases hr : renderGrid req.symmetrical (req.resolution + req.padding * 2)
      (req.resolution / req.grid_size) ⟨r, g, b, 255⟩
      (cellList req.padding req.resolution
        (stopValue req.resolution (req.resolution / req.grid_size) req.grid_size
          req.symmetrical)
        (req.resolution / req.grid_size)) (bitsOfBytes rest) with p | ops
  · have hp : p ≠ RPanic.bitsExhausted := by
      intro hcontra
      exact hne (by rw [hr, hcontra])
    simp [hp]
  · simp

/-- Witness for C2 at the default request for identifier `a`:
grid size 5, resolution 200, padding 0, symmetry on, SHA-224. -/
theorem bit_budget_sufficient_witness :
    (cellList (Request.padding ⟨"GET", some "a", none, []⟩)
        (Request.resolution ⟨"GET", some "a", none, []⟩)
        (stopValue (Request.resolution ⟨"GET", some "a", none, []⟩)
          (Request.resolution ⟨"GET", some "a", none, []⟩ /
            Request.grid_size ⟨"GET", some "a", none, []⟩)
          (Request.grid_size ⟨"GET", some "a", none, []⟩)
          (Request.symmetrical ⟨"GET", some "a", none, []⟩))
        (Request.resolution ⟨"GET", some "a", none, []⟩ /
          Request.grid_size ⟨"GET", some "a", none, []⟩)).length
      ≤ 8 * (HashAlg.output_bytes .sha224 - 3) ∧
      gen_identicon zeroHash ⟨"GET", some "a", none, []⟩ ≠
        Outcome.panic RPanic.bitsExhausted :=
  bit_budget_sufficient zeroHash ⟨"GET", some "a", none, []⟩ "a" .sha224
    (fun a _ => by simp [zeroHash])
    rfl rfl (by decide) (by decide) (by decide) (by decide) (by decide)
    (by decide) (by decide) (by decide)

/-- Every visited coordinate of a stride-`cell` sweep bounded by at most
`grid * cell` stays a full cell inside `grid * cell` plus the start
offset. -/
theorem mem_rangeStep_bound {padding stp cell grid res x : Nat} (hc : 0 < cell)
    (hmul : grid * cell = res) (hstp : stp ≤ res)
    (hx : x ∈ rangeStep padding stp cell) : x + cell ≤ res + padding := by
  obtain ⟨k, rfl, hlt⟩ := mem_rangeStep hc hx
  have hk : k < grid := by
    by_contra hk
    push_neg at hk
    have hge : grid * cell ≤ k * cell := Nat.mul_le_mul_right _ hk
    omega
  have hk1 : (k + 1) * cell ≤ grid * cell := Nat.mul_le_mul_right _ hk
  rw [Nat.succ_mul] at hk1
  omega

/-- C9: for every valid request the handler returns an image, every
recorded `fill_square` call stays inside the `size × size` canvas, the
mirrored-column subtraction `size - cx - cell` never underflows (every
swept column satisfies `cx + cell ≤ size`), and `fill_square` never
touches a pixel outside the canvas. -/
theorem render_in_bounds (hash : HashAlg → String → List Nat) (req : Request)
    (name : String) (alg : HashAlg)
    (hlen : ∀ a s, (hash a s).length = a.output_bytes)
    (hmethod : req.method = "GET")
    (hfile : req.file_name = some name)
    (hg1 : 1 ≤ req.grid_size)
    (hg21 : req.grid_size ≤ 21)
    (hmod : req.resolution % req.grid_size = 0)
    (hres : req.resolution ≤ 1000)
    (hcell : 1 ≤ req.resolution / req.grid_size)
    (hico : ¬(256 < req.resolution + req.padding * 2 ∧ req.extensionOrDefault = "ico"))
    (_hsize : req.resolution + req.padding * 2 < 4294967296)
    (hsel : selectHasher req.grid_size = some alg) :
    ∃ ops, gen_identicon hash req =
        Outcome.image ("image/" ++ req.extensionOrDefault) (formatOf req.extensionOrDefault)
          (req.resolution + req.padding * 2) ops ∧
      (∀ op ∈ ops, op.x + op.s ≤ req.resolution + req.padding * 2 ∧
        op.y + op.s ≤ req.resolution + req.padding * 2) ∧
      (∀ cx ∈ rangeStep req.padding
          (stopValue req.resolution (req.resolution / req.grid_size) req.grid_size
            req.symmetrical)
          (req.resolution / req.grid_size),
        cx + req.resolution / req.grid_size ≤ req.resolution + req.padding * 2) ∧
      (∀ op ∈ ops, ∀ cvs : Canvas, ∀ p : Nat × Nat,
        fill_square cvs op.x op.y op.s op.c p ≠ cvs p →
          p.1 < req.resolution + req.padding * 2 ∧
            p.2 < req.resolution + req.padding * 2) := by
  have hdvd : req.grid_size ∣ req.resolution := Nat.dvd_of_mod_eq_zero hmod
  have hmul : req.grid_size * (req.resolution / req.grid_size) = req.resolution :=
    Nat.mul_div_cancel' hdvd
  have hcpos : 0 < req.resolution / req.grid_size := hcell
  obtain ⟨r, g, b, rest, hbytes, heq⟩ :=
    gen_identicon_render hash req name alg hmethod hfile hsel hmod hres hico
      (by omega) (hlen alg name)
  have hrest : rest.length = alg.output_bytes - 3 := by
    have := hlen alg name
    rw [hbytes] at this
    simp at this
    omega
  have hbits : (cellList req.padding req.resolution
      (stopValue req.resolution (req.resolution / req.grid_size) req.grid_size
        req.symmetrical)
      (req.resolution / req.grid_size)).length ≤ (bitsOfBytes rest).length := by
    rw [bitsOfBytes_length, hrest]
    exact le_trans (cellCount_le_budget req alg hg1 hg21 hmod hcell hsel) (by omega)
  have hcolbound : ∀ cx ∈ rangeStep req.padding
      (stopValue req.resolution (req.resolution / req.grid_size) req.grid_size
        req.symmetrical)
      (req.resolution / req.grid_size),
      cx + req.resolution / req.grid_size ≤ req.resolution + req.padding * 2 := by
    intro cx hcx
    have := mem_rangeStep_bound hcpos hmul (stopValue_le _ _ _ _) hcx
    omega
  have hcellbound : ∀ q ∈ cellList req.padding req.resolution
      (stopValue req.resolution (req.resolution / req.grid_size) req.grid_size
        req.symmetrical)
      (req.resolution / req.grid_size),
      q.1 + req.resolution / req.grid_size ≤ req.resolution + req.padding * 2 ∧
        q.2 + req.resolution / req.grid_size ≤ req.resolution + req.padding * 2 := by
    intro q hq
    obtain ⟨qx, qy⟩ := q
    rw [mem_cellList] at hq
    have h1 := hcolbound qx hq.1
    have h2 := mem_rangeStep_bound hcpos hmul (le_refl _) hq.2
    exact ⟨h1, by omega⟩
  obtain ⟨ops, hops, hbound⟩ := renderGrid_ok_of_bounds req.symmetrical
    (req.resolution + req.padding * 2) (req.resolution / req.grid_size) ⟨r, g, b, 255⟩
    (cellList req.padding req.resolution
      (stopValue req.resolution (req.resolution / req.grid_size) req.grid_size
        req.symmetrical)
      (req.resolution / req.grid_size)) (bitsOfBytes rest) hbits hcellbound
  refine ⟨ops, ?_, ?_, hcolbound, ?_⟩
  · rw [heq, hops]
  · intro op hop
    exact ⟨(hbound op hop).2.2.1, (hbound op hop).2.2.2⟩
  · intro op hop cvs p hne
    have hb := hbound op hop
    constructor
    · by_contra hx
      push_neg at hx
      exact hne (fill_square_unchanged _ _ _ _ _ _ (by omega))
    · by_contra hy
      push_neg at hy
      exact hne (fill_square_unchanged _ _ _ _ _ _ (by omega))

/-- Witness for C9 at the default request for identifier `b`. -/
theorem render_in_bounds_witness :
    ∃ ops, gen_identicon zeroHash ⟨"GET", some "b", none, []⟩ =
        Outcome.image ("image/" ++ Request.extensionOrDefault ⟨"GET", some "b", none, []⟩)
          (formatOf (Request.extensionOrDefault ⟨"GET", some "b", none, []⟩))
          (Request.resolution ⟨"GET", some "b", none, []⟩ +
            Request.padding ⟨"GET", some "b", none, []⟩ * 2) ops ∧
      (∀ op ∈ ops, op.x + op.s ≤ Request.resolution ⟨"GET", some "b", none, []⟩ +
          Request.padding ⟨"GET", some "b", none, []⟩ * 2 ∧
        op.y + op.s ≤ Request.resolution ⟨"GET", some "b", none, []⟩ +
          Request.padding ⟨"GET", some "b", none, []⟩ * 2) ∧
      (∀ cx ∈ rangeStep (Request.padding ⟨"GET", some "b", none, []⟩)
          (stopValue (Request.resolution ⟨"GET", some "b", none, []⟩)
            (Request.resolution ⟨"GET", some "b", none, []⟩ /
              Request.grid_size ⟨"GET", some "b", none, []⟩)
            (Request.grid_size ⟨"GET", some "b", none, []⟩)
            (Request.symmetrical ⟨"GET", some "b", none, []⟩))
          (Request.resolution ⟨"GET", some "b", none, []⟩ /
            Request.grid_size ⟨"GET", some "b", none, []⟩),
        cx + Request.resolution ⟨"GET", some "b", none, []⟩ /
            Request.grid_size ⟨"GET", some "b", none, []⟩ ≤
          Request.resolution ⟨"GET", some "b", none, []⟩ +
            Request.padding ⟨"GET", some "b", none, []⟩ * 2) ∧
      (∀ op ∈ ops, ∀ cvs : Canvas, ∀ p : Nat × Nat,
        fill_square cvs op.x op.y op.s op.c p ≠ cvs p →
          p.1 < Request.resolution ⟨"GET", some "b", none, []⟩ +
              Request.padding ⟨"GET", some "b", none, []⟩ * 2 ∧
            p.2 < Request.resolution ⟨"GET", some "b", none, []⟩ +
              Request.padding ⟨"GET", some "b", none, []⟩ * 2) :=
  render_in_bounds zeroHash ⟨"GET", some "b", none, []⟩ "b" .sha224
    (fun a _ => by simp [zeroHash])
    rfl rfl (by decide) (by decide) (by decide) (by decide) (by decide)
    (by decide) (by decide) (by decide)

/-- C10: padding can truncate the pattern rather than only surround it.
For a valid request the outer loop visits
`ceil((resolution - padding) / cellSize)` rows (`0` when
`padding ≥ resolution`), which equals `gridSize` exactly when
`padding < cellSize`; when `padding ≥ resolution` no cell is visited at
all, the handler returns an image with no `fill_square` call, and the
resulting canvas is fully transparent. -/
theorem padding_truncates (hash : HashAlg → String → List Nat) (req : Request)
    (name : String) (alg : HashAlg)
    (hlen : ∀ a s, (hash a s).length = a.output_bytes)
    (hmethod : req.method = "GET")
    (hfile : req.file_name = some name)
    (hg1 : 1 ≤ req.grid_size)
    (hg21 : req.grid_size ≤ 21)
    (hmod : req.resolution % req.grid_size = 0)
    (hres : req.resolution ≤ 1000)
    (hcell : 1 ≤ req.resolution / req.grid_size)
    (hico : ¬(256 < req.resolution + req.padding * 2 ∧ req.extensionOrDefault = "ico"))
    (_hsize : req.resolution + req.padding * 2 < 4294967296)
    (hsel : selectHasher req.grid_size = some alg) :
    (req.padding < req.resolution →
      (rangeStep req.padding req.resolution (req.resolution / req.grid_size)).length =
        (req.resolution - req.padding + req.resolution / req.grid_size - 1) /
          (req.resolution / req.grid_size)) ∧
    (req.resolution ≤ req.padding →
      (rangeStep req.padding req.resolution (req.resolution / req.grid_size)).length = 0) ∧
    (req.padding < req.resolution / req.grid_size →
      (rangeStep req.padding req.resolution (req.resolution / req.grid_size)).length =
        req.grid_size) ∧
    (req.resolution ≤ req.padding →
      gen_identicon hash req =
        Outcome.image ("image/" ++ req.extensionOrDefault) (formatOf req.extensionOrDefault)
          (req.resolution + req.padding * 2) [] ∧
      ∀ p : Nat × Nat, applyOps blankCanvas [] p = transparent) := by
  have hdvd : req.grid_size ∣ req.resolution := Nat.dvd_of_mod_eq_zero hmod
  have hmul : req.grid_size * (req.resolution / req.grid_size) = req.resolution :=
    Nat.mul_div_cancel' hdvd
  have hcpos : 0 < req.resolution / req.grid_size := hcell
  have hformula : (rangeStep req.padding req.resolution
      (req.resolution / req.grid_size)).length =
      (req.resolution - req.padding + req.resolution / req.grid_size - 1) /
        (req.resolution / req.grid_size) := rangeStep_length _ _ _
  refine ⟨fun _ => hformula, ?_, ?_, ?_⟩
  · intro hpad
    rw [hformula]
    have hz : req.resolution - req.padding = 0 := by omega
    rw [hz]
    exact Nat.div_eq_of_lt (by omega)
  · intro hpad
    rw [rangeStep_length_eq]
    have := numSteps_eq_of_padding_lt req.padding req.grid_size
      (req.resolution / req.grid_size) hcpos (by omega) hpad
    rw [hmul] at this
    exact this
  · intro hpad
    have hrows0 : (rangeStep req.padding req.resolution
        (req.resolution / req.grid_size)).length = 0 := by
      rw [rangeStep_length_eq]
      unfold numSteps
      have hz : req.resolution - req.padding = 0 := by omega
      rw [hz]
      exact Nat.div_eq_of_lt (by omega)
    have hrows : rangeStep req.padding req.resolution (req.resolution / req.grid_size) = [] :=
      List.length_eq_zero.mp hrows0
    have hcells : cellList req.padding req.resolution
        (stopValue req.resolution (req.resolution / req.grid_size) req.grid_size
          req.symmetrical)
        (req.resolution / req.grid_size) = [] := by
      unfold cellList
      rw [hrows]
      rfl
    obtain ⟨r, g, b, rest, hbytes, heq⟩ :=
      gen_identicon_render hash req name alg hmethod hfile hsel hmod hres hico
        (by omega) (hlen alg name)
    rw [heq, hcells]
    exact ⟨by simp [renderGrid], fun p => rfl⟩

/-- Witness for C10: grid size 1, resolution 2, padding 5; the padding
swallows the whole pattern and the image comes back empty. -/
theorem padding_truncates_witness :
    (Request.padding reqPadBig < Request.resolution reqPadBig →
      (rangeStep (Request.padding reqPadBig) (Request.resolution reqPadBig)
          (Request.resolution reqPadBig / Request.grid_size reqPadBig)).length =
        (Request.resolution reqPadBig - Request.padding reqPadBig +
            Request.resolution reqPadBig / Request.grid_size reqPadBig - 1) /
          (Request.resolution reqPadBig / Request.grid_size reqPadBig)) ∧
    (Request.resolution reqPadBig ≤ Request.padding reqPadBig →
      (rangeStep (Request.padding reqPadBig) (Request.resolution reqPadBig)
          (Request.resolution reqPadBig / Request.grid_size reqPadBig)).length = 0) ∧
    (Request.padding reqPadBig < Request.resolution reqPadBig / Request.grid_size reqPadBig →
      (rangeStep (Request.padding reqPadBig) (Request.resolution reqPadBig)
          (Request.resolution reqPadBig / Request.grid_size reqPadBig)).length =
        Request.grid_size reqPadBig) ∧
    (Request.resolution reqPadBig ≤ Request.padding reqPadBig →
      gen_identicon zeroHash reqPadBig =
        Outcome.image ("image/" ++ Request.extensionOrDefault reqPadBig)
          (formatOf (Request.extensionOrDefault reqPadBig))
          (Request.resolution reqPadBig + Request.padding reqPadBig * 2) [] ∧
      ∀ p : Nat × Nat, applyOps blankCanvas [] p = transparent) :=
  padding_truncates zeroHash reqPadBig "pad" .sha224
    (fun a _ => by simp [zeroHash])
    rfl rfl (by decide) (by decide) (by decide) (by decide) (by decide)
    (by decide) (by decide) (by decide)

/-- C4: with symmetry on, every visited cell at column `cx`
(`padding ≤ cx < stop` with `stop` the truncated
`resolution - cellSize*gridSize*0.5`) whose bit is true gets both its own
square and the square at column `size - cx - cell` in the same row with
the same fill color; with symmetry off the columns sweep up to
`resolution` and a successful render paints exactly one square per
true-bit cell, never a mirrored one. -/
theorem symmetry_mirroring (size cell padding resolution grid_size : Nat) (color : Rgba)
    (bits : List Bool) :
    (∀ (ops : List FillOp) (cx cy : Nat),
      renderGrid true size cell color
          (cellList padding resolution (stopValue resolution cell grid_size true) cell)
          bits = .ok ops →
      ((cx, cy), true) ∈
        (cellList padding resolution (stopValue resolution cell grid_size true) cell).zip
          bits →
      (⟨cx, cy, cell, color⟩ : FillOp) ∈ ops ∧
        (⟨size - cx - cell, cy, cell, color⟩ : FillOp) ∈ ops) ∧
    (∀ ops : List FillOp,
      renderGrid false size cell color
          (cellList padding resolution (stopValue resolution cell grid_size false) cell)
          bits = .ok ops →
      ops = (((cellList padding resolution resolution cell).zip bits).filter
              (fun pb => pb.2)).map
            (fun pb => (⟨pb.1.1, pb.1.2, cell, color⟩ : FillOp))) := by
  constructor
  · intro ops cx cy h hmem
    exact renderGrid_true_mem size cell color _ bits ops cx cy h hmem
  · intro ops h
    have hstop : stopValue resolution cell grid_size false = resolution := rfl
    rw [hstop] at h
    exact renderGrid_false_eq size cell color _ bits ops h

/-- Witness for C4 on a 2-by-2 canvas with cell size 1: the true bit at
cell `(0,0)` paints both column 0 and mirrored column 1 when symmetric,
and the asymmetric render paints exactly the two true-bit cells. -/
theorem symmetry_mirroring_witness :
    ((⟨0, 0, 1, ⟨9, 9, 9, 255⟩⟩ : FillOp) ∈
        [(⟨0, 0, 1, ⟨9, 9, 9, 255⟩⟩ : FillOp), ⟨2 - 0 - 1, 0, 1, ⟨9, 9, 9, 255⟩⟩] ∧
      (⟨2 - 0 - 1, 0, 1, ⟨9, 9, 9, 255⟩⟩ : FillOp) ∈
        [(⟨0, 0, 1, ⟨9, 9, 9, 255⟩⟩ : FillOp), ⟨2 - 0 - 1, 0, 1, ⟨9, 9, 9, 255⟩⟩]) ∧
    ([(⟨0, 0, 1, ⟨9, 9, 9, 255⟩⟩ : FillOp), ⟨1, 1, 1, ⟨9, 9, 9, 255⟩⟩] =
      (((cellList 0 2 2 1).zip [true, false, false, true]).filter
          (fun pb => pb.2)).map
        (fun pb => (⟨pb.1.1, pb.1.2, 1, ⟨9, 9, 9, 255⟩⟩ : FillOp))) :=
  ⟨(symmetry_mirroring 2 1 0 2 2 ⟨9, 9, 9, 255⟩ [true, false, false, true]).1
      [⟨0, 0, 1, ⟨9, 9, 9, 255⟩⟩, ⟨2 - 0 - 1, 0, 1, ⟨9, 9, 9, 255⟩⟩] 0 0
      rfl (by decide),
    (symmetry_mirroring 2 1 0 2 2 ⟨9, 9, 9, 255⟩ [true, false, false, true]).2
      [⟨0, 0, 1, ⟨9, 9, 9, 255⟩⟩, ⟨1, 1, 1, ⟨9, 9, 9, 255⟩⟩] rfl⟩

/-- C5: the digest is consumed as fill color
`RGBA(digest[0], digest[1], digest[2], 255)` plus the bit stream of the
remaining bytes, each byte emitted least-significant-bit first:
bit `8*i + k` of the stream is `((digest[3+i] >> k) & 1) == 1`. -/
theorem digest_consumption (r g b : Nat) (rest : List Nat) :
    deriveColorAndBits (r :: g :: b :: rest) = some (⟨r, g, b, 255⟩, bitsOfBytes rest) ∧
    (bitsOfBytes rest).length = 8 * rest.length ∧
    ∀ i k, i < rest.length → k < 8 →
      (bitsOfBytes rest).getD (8 * i + k) false = ((rest.getD i 0 >>> k) &&& 1 == 1) :=
  ⟨rfl, bitsOfBytes_length rest, fun i k hi hk => bitsOfBytes_getD rest i k hi hk⟩

/-- Witness for C5 on the digest `[1, 2, 3, 5]`: color `(1,2,3,255)` and
bit 2 of byte 5. -/
theorem digest_consumption_witness :
    deriveColorAndBits [1, 2, 3, 5] = some (⟨1, 2, 3, 255⟩, bitsOfBytes [5]) ∧
    (bitsOfBytes [5]).getD (8 * 0 + 2) false = (([5].getD 0 0 >>> 2) &&& 1 == 1) :=
  ⟨(digest_consumption 1 2 3 [5]).1,
   (digest_consumption 1 2 3 [5]).2.2 0 2 (by decide) (by decide)⟩

/-- C1: the digest algorithm is selected solely by the grid size through
the fixed bucket table (28 bytes for 1-13, 32 for 14, 48 for 15-18, 64
for 19-21), independently of resolution, padding, symmetry and format. -/
theorem digest_bucket_table (g : Nat) :
    ((1 ≤ g ∧ g ≤ 13) → (selectHasher g).map HashAlg.output_bytes = some 28) ∧
    (g = 14 → (selectHasher g).map HashAlg.output_bytes = some 32) ∧
    ((15 ≤ g ∧ g ≤ 18) → (selectHasher g).map HashAlg.output_bytes = some 48) ∧
    ((19 ≤ g ∧ g ≤ 21) → (selectHasher g).map HashAlg.output_bytes = some 64) ∧
    ∀ req1 req2 : Request, req1.grid_size = req2.grid_size →
      chosenAlg req1 = chosenAlg req2 := by
  refine ⟨?_, ?_, ?_, ?_, ?_⟩
  · intro h
    unfold selectHasher
    rw [if_pos h]
    rfl
  · intro h
    subst h
    decide
  · intro h
    unfold selectHasher
    rw [if_neg (by omega), if_neg (by omega), if_pos h]
    rfl
  · intro h
    unfold selectHasher
    rw [if_neg (by omega), if_neg (by omega), if_neg (by omega), if_pos h]
    rfl
  · intro req1 req2 h
    unfold chosenAlg
    rw [h]

/-- Witness for C1 at grid sizes 13, 14, 18, 21 and at two requests that
differ in resolution, padding, symmetry and format but share grid size
5. -/
theorem digest_bucket_table_witness :
    (selectHasher 13).map HashAlg.output_bytes = some 28 ∧
    (selectHasher 14).map HashAlg.output_bytes = some 32 ∧
    (selectHasher 18).map HashAlg.output_bytes = some 48 ∧
    (selectHasher 21).map HashAlg.output_bytes = some 64 ∧
    chosenAlg ⟨"GET", some "x", none, []⟩ =
      chosenAlg ⟨"GET", some "y", some "ico",
        [("res", "300"), ("pad", "7"), ("sym", "false")]⟩ :=
  ⟨(digest_bucket_table 13).1 (by omega),
   (digest_bucket_table 14).2.1 rfl,
   (digest_bucket_table 18).2.2.1 (by omega),
   (digest_bucket_table 21).2.2.2.1 (by omega),
   (digest_bucket_table 5).2.2.2.2 _ _ (by decide)⟩

/-- A missing or unparseable query value makes `parse_query_param_or`
return its default. -/
theorem parse_query_param_or_default {T : Type} (query : List (String × String))
    (key : String) (parse : String → Option T) (default : T)
    (h : qlookup query key = none ∨
      ∃ v, qlookup query key = some v ∧ parse v = none) :
    parse_query_param_or query key parse default = default := by
  unfold parse_query_param_or
  rcases h with h | ⟨v, hv, hp⟩
  · rw [h]
  · rw [hv]
    show (parse v).getD default = default
    rw [hp]
    rfl

/-- C8: each of `size`, `pad`, `res` and `sym`, when absent or
unparseable, silently falls back to its documented default: grid size 5,
padding 0, resolution the nearest multiple of the grid size to 200, and
symmetry on. -/
theorem silent_defaults (req : Request) :
    ((qlookup req.query "size" = none ∨
        ∃ v, qlookup req.query "size" = some v ∧ parseU32 v = none) →
      req.grid_size = 5) ∧
    ((qlookup req.query "pad" = none ∨
        ∃ v, qlookup req.query "pad" = some v ∧ parseU32 v = none) →
      req.padding = 0) ∧
    ((qlookup req.query "res" = none ∨
        ∃ v, qlookup req.query "res" = some v ∧ parseU32 v = none) →
      req.resolution = closest_multiple 200 req.grid_size) ∧
    ((qlookup req.query "sym" = none ∨
        ∃ v, qlookup req.query "sym" = some v ∧ parseBool v = none) →
      req.symmetrical = true) :=
  ⟨fun h => parse_query_param_or_default _ _ _ _ h,
   fun h => parse_query_param_or_default _ _ _ _ h,
   fun h => parse_query_param_or_default _ _ _ _ h,
   fun h => parse_query_param_or_default _ _ _ _ h⟩

/-- Witness for C8: `size` and `sym` present but unparseable, `pad` and
`res` absent; all four defaults apply. -/
theorem silent_defaults_witness :
    Request.grid_size ⟨"GET", some "w", none, [("size", "abc"), ("sym", "maybe")]⟩ = 5 ∧
    Request.padding ⟨"GET", some "w", none, [("size", "abc"), ("sym", "maybe")]⟩ = 0 ∧
    Request.resolution ⟨"GET", some "w", none, [("size", "abc"), ("sym", "maybe")]⟩ =
      closest_multiple 200
        (Request.grid_size ⟨"GET", some "w", none, [("size", "abc"), ("sym", "maybe")]⟩) ∧
    Request.symmetrical ⟨"GET", some "w", none, [("size", "abc"), ("sym", "maybe")]⟩ = true :=
  ⟨(silent_defaults _).1 (Or.inr ⟨"abc", by decide, by decide⟩),
   (silent_defaults _).2.1 (Or.inl (by decide)),
   (silent_defaults _).2.2.1 (Or.inl (by decide)),
   (silent_defaults _).2.2.2 (Or.inr ⟨"maybe", by decide, by decide⟩)⟩

/-- C7: the pipeline is deterministic and stateless: the response to a
request does not depend on the requests served before it, and serving the
same request twice yields equal outcomes. -/
theorem deterministic_pipeline (hash : HashAlg → String → List Nat)
    (p1 p2 : List Request) (req : Request) :
    (serve hash (p1 ++ [req])).getLast? = (serve hash (p2 ++ [req])).getLast? ∧
    ∀ o1 o2 : Outcome, serve hash [req, req] = [o1, o2] → o1 = o2 := by
  constructor
  · simp [serve, List.getLast?_concat]
  · intro o1 o2 h
    simp only [serve, List.map_cons, List.map_nil, List.cons.injEq, and_true] at h
    rw [← h.1, ← h.2]

/-- Witness for C7: two renders of the same concrete request agree. -/
theorem deterministic_pipeline_witness :
    gen_identicon zeroHash ⟨"GET", some "d", none, []⟩ =
      gen_identicon zeroHash ⟨"GET", some "d", none, []⟩ :=
  (deterministic_pipeline zeroHash [] [] ⟨"GET", some "d", none, []⟩).2 _ _ rfl

/-- Counterexample to C3 as stated: a grid size of 22 together with an
indivisible resolution 199 is rejected with the divisibility error, not
the grid-size error, and a grid size of 0 crashes with a division-by-zero
panic instead of returning any error response. -/
theorem grid_out_of_range_counterexample :
    gen_identicon zeroHash ⟨"GET", some "a", none, [("size", "22"), ("res", "199")]⟩ =
      Outcome.error 400 [("X-Recommended-Size", 198)]
        "The resolution must be evenly divisible by the size" ∧
    gen_identicon zeroHash ⟨"GET", some "a", none, [("size", "22"), ("res", "199")]⟩ ≠
      Outcome.error 400 [] "Grid size must be less from range 1-21" ∧
    gen_identicon zeroHash ⟨"GET", some "a", none, [("size", "0")]⟩ =
      Outcome.panic RPanic.divByZero :=
  ⟨by decide, by decide, by decide⟩

/-- C3 (amended): a GET request with a name, grid size at least 22, that
passes the earlier checks (divisibility, resolution cap, ICO size,
nonzero cell size) is rejected with the grid-size-out-of-range error,
whose message differs from the divisibility error; a parsed grid size of
0 instead panics with a division by zero before validation. -/
theorem grid_out_of_range_amended :
    (∀ (hash : HashAlg → String → List Nat) (req : Request) (name : String),
      req.method = "GET" → req.file_name = some name → 22 ≤ req.grid_size →
      req.resolution % req.grid_size = 0 → req.resolution ≤ 1000 →
      ¬(256 < req.resolution + req.padding * 2 ∧ req.extensionOrDefault = "ico") →
      req.resolution / req.grid_size ≠ 0 →
      gen_identicon hash req =
        Outcome.error 400 [] "Grid size must be less from range 1-21") ∧
    (∀ (hash : HashAlg → String → List Nat) (req : Request),
      req.method = "GET" → req.grid_size = 0 →
      gen_identicon hash req = Outcome.panic RPanic.divByZero) ∧
    ("Grid size must be less from range 1-21" ≠
      "The resolution must be evenly divisible by the size") := by
  refine ⟨?_, ?_, by decide⟩
  · intro hash req name hmethod hfile h22 hmod hres hico hcell
    have hg0 : ¬req.grid_size = 0 := by omega
    have h1000 : ¬1000 < req.resolution := by omega
    have hsel : selectHasher req.grid_size = none := selectHasher_eq_none _ h22
    simp only [gen_identicon, hmethod, hfile, hsel, hmod, hg0, h1000, hico, hcell, ne_eq,
      not_true_eq_false, not_false_eq_true, if_false, if_true, ite_false, ite_true]
  · intro hash req hmethod hg
    simp only [gen_identicon, hmethod, hg, ne_eq, not_true_eq_false, if_false, if_true,
      ite_false, ite_true]

/-- Witness for amended C3: grid size 22 with divisible resolution 220
hits the grid-size error; grid size 0 panics. -/
theorem grid_out_of_range_amended_witness :
    gen_identicon zeroHash ⟨"GET", some "a", none, [("size", "22"), ("res", "220")]⟩ =
      Outcome.error 400 [] "Grid size must be less from range 1-21" ∧
    gen_identicon zeroHash ⟨"GET", some "z", none, [("size", "0")]⟩ =
      Outcome.panic RPanic.divByZero :=
  ⟨grid_out_of_range_amended.1 zeroHash _ "a" rfl rfl (by decide) (by decide) (by decide)
      (by decide) (by decide),
   grid_out_of_range_amended.2.1 zeroHash _ rfl (by decide)⟩

/-- Counterexample to C6 as stated: with a parsed grid size of 0 and
resolution 199 (not divisible by 0), the handler panics with a division
by zero instead of rejecting with a suggested resolution. -/
theorem divisibility_rejection_counterexample :
    Request.resolution ⟨"GET", some "a", none, [("size", "0"), ("res", "199")]⟩ %
        Request.grid_size ⟨"GET", some "a", none, [("size", "0"), ("res", "199")]⟩ ≠ 0 ∧
    gen_identicon zeroHash ⟨"GET", some "a", none, [("size", "0"), ("res", "199")]⟩ =
      Outcome.panic RPanic.divByZero :=
  ⟨by decide, by decide⟩

/-- C6 (amended): for every GET request with a name and a parsed grid
size of at least 1 whose resolution is not evenly divisible by the grid
size, the handler rejects with status 400 and the `X-Recommended-Size`
header carrying the nearest valid resolution as the source computes it:
`gridSize * round(resolution / gridSize)` with round half away from zero
on the binary32 quotient (the `closest_multiple` model); in particular
resolution 199 with grid size 5 suggests 200, where the float result
coincides with exact round-half-away-from-zero arithmetic. -/
theorem divisibility_rejection (hash : HashAlg → String → List Nat) (req : Request)
    (name : String)
    (hmethod : req.method = "GET") (hfile : req.file_name = some name)
    (hg1 : 1 ≤ req.grid_size) (hmod : req.resolution % req.grid_size ≠ 0) :
    gen_identicon hash req =
      Outcome.error 400
        [("X-Recommended-Size", closest_multiple req.resolution req.grid_size)]
        "The resolution must be evenly divisible by the size" ∧
    closest_multiple 199 5 = 200 ∧
    closest_multiple 199 5 = 5 * ((2 * 199 + 5) / (2 * 5)) := by
  have hg0 : ¬req.grid_size = 0 := by omega
  refine ⟨?_, by decide, by decide⟩
  simp only [gen_identicon, hmethod, hfile, hg0, hmod, ne_eq, not_true_eq_false,
    not_false_eq_true, if_false, if_true, ite_false, ite_true]

/-- Witness for amended C6 at resolution 199 with grid size 5: rejected
with suggested resolution 200. -/
theorem divisibility_rejection_witness :
    gen_identicon zeroHash reqRes199 =
      Outcome.error 400
        [("X-Recommended-Size",
          closest_multiple (Request.resolution reqRes199) (Request.grid_size reqRes199))]
        "The resolution must be evenly divisible by the size" ∧
    closest_multiple 199 5 = 200 ∧
    closest_multiple 199 5 = 5 * ((2 * 199 + 5) / (2 * 5)) :=
  divisibility_rejection zeroHash reqRes199 "alice" rfl rfl (by decide) (by decide)

end IdenticonGenerator
